import Mathlib

/-!
Shallow embedding of the core logic of `videoapp.py` (dynamicvision):
the caption approximation loop of `transcribe_and_translate`, the
HLS-playlist locator `extract_m3u8_url` (including hand-compiled versions
of its two regular expressions), and the metadata scraper
`extract_metadata` over an abstract parsed document. External
collaborators (network fetch, Whisper transcription, Google translation)
are parameters; fallible collaborators are modelled with `Except`.
-/

/-- Whitespace as recognised by Python's `str.split()` / regex `\s`
(ASCII fragment). -/
def pyIsSpace (c : Char) : Bool :=
  c == ' ' || c == '\t' || c == '\n' || c == '\r' || c == '\x0b' || c == '\x0c'

/-- Python `str.strip()`: drop leading and trailing whitespace. -/
def pyStrip (s : String) : String :=
  String.mk (((s.toList.dropWhile pyIsSpace).reverse.dropWhile pyIsSpace).reverse)

/-- Accumulator-style splitter behind `pySplit`. -/
def splitWsAux : List Char → List Char → List (List Char)
  | [], acc => if acc.isEmpty then [] else [acc.reverse]
  | c :: rest, acc =>
    if pyIsSpace c then
      if acc.isEmpty then splitWsAux rest []
      else acc.reverse :: splitWsAux rest []
    else splitWsAux rest (c :: acc)

/-- Python `s.split()` (no separator): whitespace-separated tokens,
no empty tokens. -/
def pySplit (s : String) : List String :=
  (splitWsAux s.toList []).map (fun l => String.mk l)

/-- Python `s.split(sep)` for a one-character separator, keeping empty
fields. -/
def splitChar (sep : Char) : List Char → List (List Char)
  | [] => [[]]
  | c :: rest =>
    if c == sep then [] :: splitChar sep rest
    else
      match splitChar sep rest with
      | [] => [[c]]
      | h :: t => (c :: h) :: t

/-- Decidable "is a prefix of" on character lists (Python
`str.startswith`). -/
def pfx : List Char → List Char → Bool
  | [], _ => true
  | _ :: _, [] => false
  | a :: as, b :: bs => a == b && pfx as bs

/-- Decidable substring containment on character lists (Python's
`pat in s`). -/
def isSub (pat : List Char) : List Char → Bool
  | [] => pat.isEmpty
  | c :: rest => pfx pat (c :: rest) || isSub pat rest

/-- ASCII lower-casing, as applied by `re.IGNORECASE` to the patterns in
the source. -/
def lc (c : Char) : Char := c.toLower

/-- Case-insensitive substring containment. -/
def isSubCI (pat l : List Char) : Bool := isSub (pat.map lc) (l.map lc)

/-- One timed caption entry, the dict
`{'start': ..., 'end': ..., 'text': ...}` built by
`transcribe_and_translate` (field `stop` embeds the Python key `'end'`,
a Lean keyword). -/
structure CaptionUnit where
  start : Nat
  stop : Nat
  text : String
deriving DecidableEq

/-- Default caption used only as the `List.getD` fallback in statements. -/
def cdef : CaptionUnit := { start := 0, stop := 0, text := "" }

/-- The per-token caption loop of `transcribe_and_translate`, with the
fallible translation collaborator explicit: token `i` (counting from the
accumulator argument) gets `start = i * 2`, `end = i * 2 + 2`, and the
collaborator's translation of the token; the first collaborator failure
aborts the whole loop. -/
def buildCaptionsM (translate : String → Except String String) :
    List String → Nat → Except String (List CaptionUnit)
  | [], _ => Except.ok []
  | w :: ws, i => do
    let t ← translate w
    let rest ← buildCaptionsM translate ws (i + 1)
    Except.ok ({ start := i * 2, stop := i * 2 + 2, text := t } :: rest)

/-- The caption loop when every translation succeeds (`f` the successful
collaborator). -/
def captionsFrom (f : String → String) : List String → Nat → List CaptionUnit
  | [], _ => []
  | w :: ws, i =>
    { start := i * 2, stop := i * 2 + 2, text := f w } :: captionsFrom f ws (i + 1)

/-- The body of the `try:` block of `transcribe_and_translate`:
transcribe, translate the whole transcript, then build the per-token
captions. -/
def ttRun (transcribe : Except String String)
    (translate : String → Except String String) :
    Except String (List CaptionUnit × String × String) := do
  let transcribed ← transcribe
  let translated ← translate transcribed
  let captions ← buildCaptionsM translate (pySplit transcribed) 0
  Except.ok (captions, transcribed, translated)

/-- `transcribe_and_translate`: on any collaborator failure the blanket
`except` handler returns `([], "", "")`. -/
def transcribe_and_translate (transcribe : Except String String)
    (translate : String → Except String String) :
    List CaptionUnit × String × String :=
  match ttRun transcribe translate with
  | Except.ok r => r
  | Except.error _ => ([], "", "")

/-- Whether `transcribe_and_translate` reports an error via `st.error`
(exactly when its `try:` body raised). -/
def tt_reported (transcribe : Except String String)
    (translate : String → Except String String) : Bool :=
  match ttRun transcribe translate with
  | Except.ok _ => false
  | Except.error _ => true

/-- The single-quote character (written via its code point to keep the
development printable). -/
def squote : Char := Char.ofNat 39

/-- The character class `["\']` of both regexes of `extract_m3u8_url`. -/
def isQuote (c : Char) : Bool := c == '"' || c == squote

/-- The literal `.m3u8` both regexes look for inside the quoted group. -/
def m3u8pat : List Char := ['.', 'm', '3', 'u', '8']

/-- Consume a case-insensitive literal; return the rest of the input on
success. Implements one alternative of `(?:src|url|link)` under
`re.IGNORECASE`. -/
def ciPfxDrop : List Char → List Char → Option (List Char)
  | [], l => some l
  | _ :: _, [] => none
  | p :: ps, c :: cs => if lc c == lc p then ciPfxDrop ps cs else none

/-- The alternation `(?:src|url|link)` (case-insensitive): at most one
branch can match at a given position since the first letters differ. -/
def stripKeyword (cs : List Char) : Option (List Char) :=
  match ciPfxDrop ['s', 'r', 'c'] cs with
  | some r => some r
  | none =>
    match ciPfxDrop ['u', 'r', 'l'] cs with
    | some r => some r
    | none => ciPfxDrop ['l', 'i', 'n', 'k'] cs

/-- The tail `["\']([^"\']*\.m3u8[^"\']*)["\']` of the script regex under
`re.IGNORECASE`, anchored at the current position. A backtracking match
of that tail succeeds exactly when the maximal quote-free run after the
opening quote contains `.m3u8` (ignoring case) and is terminated by a
quote, and group 1 is then that whole run. -/
def quotedCI (cs : List Char) : Option (List Char) :=
  match cs with
  | [] => none
  | c :: rest =>
    if isQuote c then
      let run := rest.takeWhile (fun d => !isQuote d)
      if isSubCI m3u8pat run && !(rest.drop run.length).isEmpty then some run
      else none
    else none

/-- The whole fallback regex `["\']([^"\']*\.m3u8[^"\']*)["\']` (no
`re.IGNORECASE`), anchored at the current position. -/
def quotedCS (cs : List Char) : Option (List Char) :=
  match cs with
  | [] => none
  | c :: rest =>
    if isQuote c then
      let run := rest.takeWhile (fun d => !isQuote d)
      if isSub m3u8pat run && !(rest.drop run.length).isEmpty then some run
      else none
    else none

/-- The script regex
`(?:src|url|link)\s*[:=]\s*["\']([^"\']*\.m3u8[^"\']*)["\']`
(case-insensitive) anchored at the current position: keyword, optional
whitespace, `:` or `=`, optional whitespace, quoted group. Greedy `\s*`
followed by `[:=]` is deterministic because `:`/`=` are not whitespace. -/
def matchP1At (cs : List Char) : Option (List Char) :=
  match stripKeyword cs with
  | none => none
  | some r1 =>
    match r1.dropWhile pyIsSpace with
    | [] => none
    | c :: r3 =>
      if c == ':' || c == '=' then quotedCI (r3.dropWhile pyIsSpace)
      else none

/-- `re.search` of the script regex: leftmost match wins. -/
def scanP1 : List Char → Option (List Char)
  | [] => none
  | c :: rest =>
    match matchP1At (c :: rest) with
    | some g => some g
    | none => scanP1 rest

/-- `re.search` of the fallback regex over the raw document text. -/
def scanP2 : List Char → Option (List Char)
  | [] => none
  | c :: rest =>
    match quotedCS (c :: rest) with
    | some g => some g
    | none => scanP2 rest

/-- The parsed page as `extract_m3u8_url` consumes it: the `.string`
contents of the `<script>` elements in document order (`none` when a
script has no single string child) and the raw response text. -/
structure Page where
  scripts : List (Option String)
  text : String

/-- Relative-path resolution of `extract_m3u8_url`: keep the match if it
starts with `http`, else join it to the directory of the page address
(`'/'.join(page_url.split('/')[:-1]) + '/' + m3u8_url.lstrip('/')`). -/
def resolve (page_url m : String) : String :=
  if pfx "http".toList m.toList then m
  else
    String.mk (List.intercalate ['/'] ((splitChar '/' page_url.toList).dropLast)
      ++ '/' :: m.toList.dropWhile (fun c => c == '/'))

/-- The script loop of `extract_m3u8_url`: a script participates only if
its string child exists and contains the literal `m3u8` (case-sensitive
pre-check); the first script whose content matches the script regex
supplies the result. -/
def scanScripts : List (Option String) → Option String
  | [] => none
  | none :: rest => scanScripts rest
  | some s :: rest =>
    if isSub ['m', '3', 'u', '8'] s.toList then
      match scanP1 s.toList with
      | some g => some (String.mk g)
      | none => scanScripts rest
    else scanScripts rest

/-- `extract_m3u8_url` after the page fetch: script scan first, raw-text
fallback second, `None` if both fail. -/
def extract_m3u8_url (page : Page) (page_url : String) : Option String :=
  match scanScripts page.scripts with
  | some m => some (resolve page_url m)
  | none =>
    match scanP2 page.text.toList with
    | some g => some (resolve page_url (String.mk g))
    | none => none

/-- A node of the parsed document as `extract_metadata` consumes it
through BeautifulSoup: an element (with its tag name and its `.text`)
or a bare text node (a `NavigableString`). -/
inductive Node where
  | element (tag : String) (text : String)
  | textNode (text : String)
deriving DecidableEq

/-- The parsed document, flattened to document order. -/
abbrev Doc := List Node

/-- `soup.find(tag)`: the `.text` of the first element with the given
tag, in document order. -/
def findTag : Doc → String → Option String
  | [], _ => none
  | Node.element t txt :: rest, tag =>
    if t == tag then some txt else findTag rest tag
  | Node.textNode _ :: rest, tag => findTag rest tag

/-- `soup.find(string=pattern)`: the first text node whose content the
pattern accepts. -/
def findString : Doc → (String → Bool) → Option String
  | [], _ => none
  | Node.element _ _ :: rest, p => findString rest p
  | Node.textNode s :: rest, p => if p s then some s else findString rest p

/-- `re.search('作者', ..., re.I)`: the author label occurs in the text
(case folding does not affect the CJK label). -/
def authorPat (s : String) : Bool := isSub ("作者").toList s.toList

/-- `re.search(r'\d{2}:\d{2}', ...)`: two digits, a colon, two digits,
anywhere in the text. -/
def hasTimePat : List Char → Bool
  | a :: b :: c :: d :: e :: rest =>
    (a.isDigit && b.isDigit && c == ':' && d.isDigit && e.isDigit)
      || hasTimePat (b :: c :: d :: e :: rest)
  | _ => false

/-- `re.search(r'\d+\.?\d*k?', ...)`: everything after `\d+` is
optional, so the search succeeds exactly when the text holds a digit. -/
def viewsPat (s : String) : Bool := s.toList.any Char.isDigit

/-- The `\d+天前` alternative of the date pattern: at least one digit
immediately before the relative-day marker. -/
def hasDayPat : List Char → Bool
  | a :: b :: c :: rest =>
    (a.isDigit && b == '天' && c == '前') || hasDayPat (b :: c :: rest)
  | _ => false

/-- `re.search(r'\d+天前|日期', ...)`. -/
def datePat (s : String) : Bool :=
  hasDayPat s.toList || isSub ("日期").toList s.toList

/-- The metadata record built by `extract_metadata`. -/
structure VideoMetadata where
  title : String
  author : String
  duration : String
  views : String
  date : String
  page_url : String
deriving DecidableEq

/-- The author/duration/views/date fields of `extract_metadata`, given
the already-computed title. The author value splits on the full-width
colon and keeps the last piece
(`author_elem.split('：')[-1].strip() if '：' in author_elem else
author_elem.strip()`). -/
def metaFields (doc : Doc) (page_url title : String) : VideoMetadata :=
  { title := title
    author :=
      match findString doc authorPat with
      | some s =>
        if s.toList.contains '：' then
          pyStrip (String.mk ((splitChar '：' s.toList).getLastD []))
        else pyStrip s
      | none => "Unknown Author"
    duration :=
      match findString doc (fun s => hasTimePat s.toList) with
      | some s => pyStrip s
      | none => "Unknown Duration"
    views :=
      match findString doc viewsPat with
      | some s => pyStrip s
      | none => "Unknown Views"
    date :=
      match findString doc datePat with
      | some s => pyStrip s
      | none => "Unknown Date"
    page_url := page_url }

/-- `extract_metadata` after the page fetch. The title chain
`soup.find('h1') or soup.find('title') or 'Unknown Title'` followed by
`title.text.strip()` succeeds on the first element found; when both
finds miss, the fallback is the plain string `'Unknown Title'`, whose
missing `.text` attribute raises `AttributeError`, so the enclosing
`except` reports the error and the function returns `None`. -/
def extract_metadata (doc : Doc) (page_url : String) : Option VideoMetadata :=
  match findTag doc "h1" with
  | some t => some (metaFields doc page_url (pyStrip t))
  | none =>
    match findTag doc "title" with
    | some t => some (metaFields doc page_url (pyStrip t))
    | none => none

example : pySplit "a b" = ["a", "b"] := by decide
example : pySplit "" = [] := rfl
example : pySplit "  x  yz " = ["x", "yz"] := by decide
example : scanP1 ("var src: \"foo.m3u8\";").toList = some ("foo.m3u8").toList := by decide
example :
    extract_m3u8_url { scripts := [some "var src = \"clip.m3u8\";"], text := "" }
      "https://hsex.icu/video-1.htm" = some "https://hsex.icu/clip.m3u8" := by decide
example :
    extract_m3u8_url { scripts := [some "link = \"http.m3u8\"; src: \"foo.m3u8\""], text := "" }
      "https://x.test/dir/page.htm" = some "http.m3u8" := by decide
example :
    extract_m3u8_url { scripts := [some "m3u8 src=\"A.M3U8\""], text := "x" }
      "http://h/p" = some "http://h/A.M3U8" := by decide
example :
    extract_m3u8_url { scripts := [some "src: \"A.M3U8\""], text := "\"b.m3u8\"" }
      "http://h/p" = some "http://h/b.m3u8" := by decide

example :
    extract_metadata
      [Node.element "h1" "Test Video", Node.textNode "作者：张三"]
      "https://hsex.icu/video-1.htm"
      = some
        { title := "Test Video", author := "张三", duration := "Unknown Duration",
          views := "Unknown Views", date := "Unknown Date",
          page_url := "https://hsex.icu/video-1.htm" } := by decide

theorem buildCaptionsM_pure (f : String → String) (ws : List String) :
    ∀ i, buildCaptionsM (fun w => Except.ok (f w)) ws i
      = Except.ok (captionsFrom f ws i) := by
  induction ws with
  | nil => intro i; rfl
  | cons w ws ih => intro i; simp [buildCaptionsM, captionsFrom, ih, Bind.bind, Except.bind]

theorem captionsFrom_length (f : String → String) (ws : List String) :
    ∀ i, (captionsFrom f ws i).length = ws.length := by
  induction ws with
  | nil => intro i; rfl
  | cons w ws ih => intro i; simp [captionsFrom, ih]

theorem captionsFrom_getD (f : String → String) (ws : List String) :
    ∀ i j, j < ws.length →
      (captionsFrom f ws i).getD j cdef
        = { start := (i + j) * 2, stop := (i + j) * 2 + 2,
            text := f (ws.getD j "") } := by
  induction ws with
  | nil => intro i j h; exact absurd h (by simp)
  | cons w ws ih =>
    intro i j h
    cases j with
    | zero => simp [captionsFrom]
    | succ j =>
      have hj : j < ws.length := by simpa using h
      have := ih (i + 1) j hj
      simp only [captionsFrom, List.getD_cons_succ, this]
      congr 1 <;> omega

theorem buildCaptionsM_err (translate : String → Except String String)
    (ws : List String) :
    ∀ i, (∃ w ∈ ws, ∃ e, translate w = Except.error e) →
      ∃ e, buildCaptionsM translate ws i = Except.error e := by
  induction ws with
  | nil => intro i h; simp at h
  | cons w ws ih =>
    intro i h
    cases hw : translate w with
    | error e => exact ⟨e, by simp [buildCaptionsM, hw, Bind.bind, Except.bind]⟩
    | ok t =>
      obtain ⟨w', hmem, e, he⟩ := h
      rcases List.mem_cons.mp hmem with hww | hin
      · rw [hww] at he; rw [he] at hw; cases hw
      · obtain ⟨e', hb⟩ := ih (i + 1) ⟨w', hin, e, he⟩
        exact ⟨e', by simp [buildCaptionsM, hw, hb, Bind.bind, Except.bind]⟩

/-- C1: for every source text, with the per-unit duration of 2 seconds
hard-wired in the source and a successful translation collaborator `f`,
the caption approximation inside `transcribe_and_translate` returns
exactly one CaptionUnit per whitespace-separated token, in token order;
unit `i` has start offset `2 * i`, end offset `2 * i + 2`, and text
`f` applied to token `i`; consecutive units are strictly increasing and
contiguous (unit `i` ends where unit `i + 1` begins). -/
theorem C1_caption_timing (f : String → String) (text : String) (i : Nat)
    (h : i < (pySplit text).length) :
    transcribe_and_translate (Except.ok text) (fun w => Except.ok (f w))
      = (captionsFrom f (pySplit text) 0, text, f text)
    ∧ (captionsFrom f (pySplit text) 0).length = (pySplit text).length
    ∧ (captionsFrom f (pySplit text) 0).getD i cdef
        = { start := 2 * i, stop := 2 * i + 2,
            text := f ((pySplit text).getD i "") }
    ∧ (i + 1 < (pySplit text).length →
        ((captionsFrom f (pySplit text) 0).getD i cdef).stop
          = ((captionsFrom f (pySplit text) 0).getD (i + 1) cdef).start)
    ∧ ((captionsFrom f (pySplit text) 0).getD i cdef).start
        < ((captionsFrom f (pySplit text) 0).getD i cdef).stop := by
  have hget := captionsFrom_getD f (pySplit text) 0 i h
  refine ⟨?_, captionsFrom_length f (pySplit text) 0, ?_, ?_, ?_⟩
  · show (match ttRun (Except.ok text) (fun w => Except.ok (f w)) with
      | Except.ok r => r
      | Except.error _ => ([], "", "")) = _
    rw [show ttRun (Except.ok text) (fun w => Except.ok (f w))
        = Except.ok (captionsFrom f (pySplit text) 0, text, f text) from ?_]
    simp [ttRun, Bind.bind, Except.bind, buildCaptionsM_pure f (pySplit text) 0]
  · rw [hget]; congr 1 <;> omega
  · intro h1
    rw [hget, captionsFrom_getD f (pySplit text) 0 (i + 1) h1]
    show (0 + i) * 2 + 2 = (0 + (i + 1)) * 2
    omega
  · rw [hget]
    show (0 + i) * 2 < (0 + i) * 2 + 2
    omega

/-- C1 witness at the two-token text `"a b"` with the collaborator
appending `"!"`. -/
theorem C1_caption_timing_witness :
    transcribe_and_translate (Except.ok "a b")
        (fun w => Except.ok ((fun u => u ++ "!") w))
      = (captionsFrom (fun u => u ++ "!") (pySplit "a b") 0, "a b", "a b" ++ "!")
    ∧ (captionsFrom (fun u => u ++ "!") (pySplit "a b") 0).length
        = (pySplit "a b").length
    ∧ (captionsFrom (fun u => u ++ "!") (pySplit "a b") 0).getD 0 cdef
        = { start := 2 * 0, stop := 2 * 0 + 2,
            text := (fun u => u ++ "!") ((pySplit "a b").getD 0 "") }
    ∧ (0 + 1 < (pySplit "a b").length →
        ((captionsFrom (fun u => u ++ "!") (pySplit "a b") 0).getD 0 cdef).stop
          = ((captionsFrom (fun u => u ++ "!") (pySplit "a b") 0).getD (0 + 1) cdef).start)
    ∧ ((captionsFrom (fun u => u ++ "!") (pySplit "a b") 0).getD 0 cdef).start
        < ((captionsFrom (fun u => u ++ "!") (pySplit "a b") 0).getD 0 cdef).stop :=
  C1_caption_timing (fun u => u ++ "!") "a b" 0 (by decide)

theorem ttRun_token_err (translate : String → Except String String)
    (t : String)
    (h : ∃ w ∈ pySplit t, ∃ e, translate w = Except.error e) :
    ∃ e, ttRun (Except.ok t) translate = Except.error e := by
  cases hf : translate t with
  | error e => exact ⟨e, by simp [ttRun, Bind.bind, Except.bind, hf]⟩
  | ok full =>
    obtain ⟨e, hb⟩ := buildCaptionsM_err translate (pySplit t) 0 h
    exact ⟨e, by simp [ttRun, Bind.bind, Except.bind, hf, hb]⟩

/-- C7: if the translation collaborator fails on any whitespace-separated
token of the transcript, the whole of `transcribe_and_translate` fails:
it reports the error and returns the empty caption list (together with
empty transcript and translation strings), never a caption list covering
a strict non-empty prefix of the tokens. -/
theorem C7_translation_fail_fast (translate : String → Except String String)
    (t : String)
    (h : ∃ w ∈ pySplit t, ∃ e, translate w = Except.error e) :
    transcribe_and_translate (Except.ok t) translate = ([], "", "")
    ∧ tt_reported (Except.ok t) translate = true := by
  obtain ⟨e, he⟩ := ttRun_token_err translate t h
  exact ⟨by simp [transcribe_and_translate, he], by simp [tt_reported, he]⟩

/-- C7 witness: the collaborator translates the full transcript but
fails on the token `"a"`. -/
theorem C7_translation_fail_fast_witness :
    transcribe_and_translate (Except.ok "a b")
        (fun w => if w == "a" then Except.error "E" else Except.ok w)
      = ([], "", "")
    ∧ tt_reported (Except.ok "a b")
        (fun w => if w == "a" then Except.error "E" else Except.ok w) = true :=
  C7_translation_fail_fast
    (fun w => if w == "a" then Except.error "E" else Except.ok w) "a b"
    ⟨"a", by decide, "E", rfl⟩

/-- C8: for the empty source text there are no whitespace-separated
tokens, and the caption approximation loop returns the empty caption
list successfully, whatever the translation collaborator does. -/
theorem C8_empty_source (translate : String → Except String String) :
    pySplit "" = []
    ∧ buildCaptionsM translate (pySplit "") 0 = Except.ok [] :=
  ⟨rfl, rfl⟩

/-- C9: whenever the transcription collaborator fails, or the
translation collaborator fails on the full transcript or on one of its
tokens, `transcribe_and_translate` returns exactly `([], "", "")` — the
very value a fully successful run with an empty transcript produces, so
the two cases are indistinguishable at the function's interface. -/
theorem C9_failure_indistinguishable (transcribe : Except String String)
    (translate : String → Except String String)
    (h : (∃ e, transcribe = Except.error e)
      ∨ (∃ t e, transcribe = Except.ok t ∧ translate t = Except.error e)
      ∨ (∃ t, transcribe = Except.ok t
          ∧ ∃ w ∈ pySplit t, ∃ e, translate w = Except.error e)) :
    transcribe_and_translate transcribe translate = ([], "", "")
    ∧ transcribe_and_translate (Except.ok "") (fun _ => Except.ok "")
        = ([], "", "") := by
  refine ⟨?_, rfl⟩
  rcases h with ⟨e, he⟩ | ⟨t, e, ht, he⟩ | ⟨t, ht, hw⟩
  · simp [transcribe_and_translate, ttRun, Bind.bind, Except.bind, he]
  · simp [transcribe_and_translate, ttRun, Bind.bind, Except.bind, ht, he]
  · subst ht
    obtain ⟨e, he⟩ := ttRun_token_err translate t hw
    simp [transcribe_and_translate, he]

/-- C9 witness: a failing transcription collaborator. -/
theorem C9_failure_indistinguishable_witness :
    transcribe_and_translate (Except.error "boom") (fun _ => Except.ok "")
      = ([], "", "")
    ∧ transcribe_and_translate (Except.ok "") (fun _ => Except.ok "")
      = ([], "", "") :=
  C9_failure_indistinguishable (Except.error "boom") (fun _ => Except.ok "")
    (Or.inl ⟨"boom", rfl⟩)

theorem toList_mk (l : List Char) : (String.mk l).toList = l := rfl

theorem mk_toList (s : String) : String.mk s.toList = s := rfl

theorem m3u8pat_lc : m3u8pat.map lc = m3u8pat := by decide

theorem pfx_iff : ∀ (p l : List Char), pfx p l = true ↔ p <+: l
  | [], l => by simp [pfx]
  | a :: as, [] => by simp [pfx]
  | a :: as, b :: bs => by
    rw [show pfx (a :: as) (b :: bs) = ((a == b) && pfx as bs) from rfl]
    rw [Bool.and_eq_true, beq_iff_eq, pfx_iff as bs]
    exact ( List.cons_prefix_cons).symm

theorem isSub_iff (p : List Char) : ∀ l, isSub p l = true ↔ p <:+: l := by
  intro l
  induction l with
  | nil =>
    rw [show isSub p [] = p.isEmpty from rfl]
    simp [List.isEmpty_iff]
  | cons c rest ih =>
    rw [show isSub p (c :: rest) = (pfx p (c :: rest) || isSub p rest) from rfl]
    rw [Bool.or_eq_true, pfx_iff, ih]
    exact ( List.infix_cons_iff).symm

theorem isSub_mono (p l l' : List Char) (h : isSub p l = true)
    (hl : l <:+: l') : isSub p l' = true :=
  (isSub_iff p l').mpr (((isSub_iff p l).mp h).trans hl)

theorem isSubCI_mono (p l l' : List Char) (h : isSubCI p l = true)
    (hl : l <:+: l') : isSubCI p l' = true :=
  isSub_mono (p.map lc) (l.map lc) (l'.map lc) h ( List.IsInfix.map lc hl)

theorem isSubCI_of_isSub (l : List Char) (h : isSub m3u8pat l = true) :
    isSubCI m3u8pat l = true := by
  have := List.IsInfix.map lc ((isSub_iff m3u8pat l).mp h)
  rw [m3u8pat_lc] at this
  exact (isSub_iff m3u8pat (l.map lc)).mpr this

theorem ciPfxDrop_sfx : ∀ (p cs r : List Char), ciPfxDrop p cs = some r → r <:+ cs
  | [], cs, r, h => by
    rw [show ciPfxDrop [] cs = some cs from rfl] at h
    cases h
    exact List.suffix_rfl
  | p :: ps, [], r, h => by cases h
  | p :: ps, c :: cs, r, h => by
    rw [show ciPfxDrop (p :: ps) (c :: cs)
        = (if lc c == lc p then ciPfxDrop ps cs else none) from rfl] at h
    by_cases hc : (lc c == lc p) = true
    · rw [if_pos hc] at h
      exact (ciPfxDrop_sfx ps cs r h).trans ( List.suffix_cons c cs)
    · rw [if_neg hc] at h; cases h

theorem stripKeyword_sfx (cs r : List Char) (h : stripKeyword cs = some r) :
    r <:+ cs := by
  unfold stripKeyword at h
  cases h1 : ciPfxDrop ['s', 'r', 'c'] cs with
  | some r1 => rw [h1] at h; cases h; exact ciPfxDrop_sfx _ _ _ h1
  | none =>
    rw [h1] at h
    cases h2 : ciPfxDrop ['u', 'r', 'l'] cs with
    | some r2 => rw [h2] at h; cases h; exact ciPfxDrop_sfx _ _ _ h2
    | none => rw [h2] at h; exact ciPfxDrop_sfx _ _ _ h

theorem quotedCI_spec (cs run : List Char) (h : quotedCI cs = some run) :
    run <:+: cs ∧ isSubCI m3u8pat run = true := by
  cases cs with
  | nil => exact Option.noConfusion h
  | cons c rest =>
    simp only [quotedCI] at h
    by_cases hq : isQuote c = true
    · rw [if_pos hq] at h
      by_cases hc : (isSubCI m3u8pat (rest.takeWhile (fun d => !isQuote d))
          && !(rest.drop (rest.takeWhile (fun d => !isQuote d)).length).isEmpty) = true
      · rw [if_pos hc] at h
        cases h
        rcases Bool.and_eq_true .. |>.mp hc with ⟨h1, _⟩
        refine ⟨?_, h1⟩
        exact (( List.takeWhile_prefix _).isInfix).trans
          (( List.suffix_cons c rest).isInfix)
      · rw [if_neg hc] at h; exact Option.noConfusion h
    · rw [if_neg hq] at h; exact Option.noConfusion h

theorem quotedCS_spec (cs run : List Char) (h : quotedCS cs = some run) :
    run <:+: cs ∧ isSub m3u8pat run = true := by
  cases cs with
  | nil => exact Option.noConfusion h
  | cons c rest =>
    simp only [quotedCS] at h
    by_cases hq : isQuote c = true
    · rw [if_pos hq] at h
      by_cases hc : (isSub m3u8pat (rest.takeWhile (fun d => !isQuote d))
          && !(rest.drop (rest.takeWhile (fun d => !isQuote d)).length).isEmpty) = true
      · rw [if_pos hc] at h
        cases h
        rcases Bool.and_eq_true .. |>.mp hc with ⟨h1, _⟩
        refine ⟨?_, h1⟩
        exact (( List.takeWhile_prefix _).isInfix).trans
          (( List.suffix_cons c rest).isInfix)
      · rw [if_neg hc] at h; exact Option.noConfusion h
    · rw [if_neg hq] at h; exact Option.noConfusion h

theorem matchP1At_spec (cs g : List Char) (h : matchP1At cs = some g) :
    g <:+: cs ∧ isSubCI m3u8pat g = true := by
  cases hsk : stripKeyword cs with
  | none =>
    simp only [matchP1At, hsk] at h
    exact Option.noConfusion h
  | some r1 =>
    cases hd : r1.dropWhile pyIsSpace with
    | nil =>
      simp only [matchP1At, hsk, hd] at h
      exact Option.noConfusion h
    | cons c r3 =>
      simp only [matchP1At, hsk, hd] at h
      by_cases hc : (c == ':' || c == '=') = true
      · rw [if_pos hc] at h
        obtain ⟨hin, hci⟩ := quotedCI_spec _ _ h
        refine ⟨hin.trans ?_, hci⟩
        have s1 : r3.dropWhile pyIsSpace <:+ r3 := List.dropWhile_suffix _
        have s2 : r3 <:+ r1.dropWhile pyIsSpace := hd ▸ List.suffix_cons c r3
        have s3 : r1.dropWhile pyIsSpace <:+ r1 := List.dropWhile_suffix _
        have s4 : r1 <:+ cs := stripKeyword_sfx cs r1 hsk
        exact (((s1.trans s2).trans s3).trans s4).isInfix
      · rw [if_neg hc] at h; exact Option.noConfusion h

theorem scanP1_spec : ∀ (s g : List Char), scanP1 s = some g →
    g <:+: s ∧ isSubCI m3u8pat g = true
  | [], g, h => by cases h
  | c :: rest, g, h => by
    rw [show scanP1 (c :: rest)
        = (match matchP1At (c :: rest) with
           | some g0 => some g0
           | none => scanP1 rest) from rfl] at h
    cases hm : matchP1At (c :: rest) with
    | some g0 => rw [hm] at h; cases h; exact matchP1At_spec _ _ hm
    | none =>
      rw [hm] at h
      obtain ⟨hin, hci⟩ := scanP1_spec rest g h
      exact ⟨hin.trans ( List.suffix_cons c rest).isInfix, hci⟩

theorem scanP2_spec : ∀ (s g : List Char), scanP2 s = some g →
    g <:+: s ∧ isSub m3u8pat g = true
  | [], g, h => by cases h
  | c :: rest, g, h => by
    rw [show scanP2 (c :: rest)
        = (match quotedCS (c :: rest) with
           | some g0 => some g0
           | none => scanP2 rest) from rfl] at h
    cases hm : quotedCS (c :: rest) with
    | some g0 => rw [hm] at h; cases h; exact quotedCS_spec _ _ hm
    | none =>
      rw [hm] at h
      obtain ⟨hin, hci⟩ := scanP2_spec rest g h
      exact ⟨hin.trans ( List.suffix_cons c rest).isInfix, hci⟩

theorem scanP1_none (s : List Char) (h : isSubCI m3u8pat s = false) :
    scanP1 s = none := by
  cases hr : scanP1 s with
  | none => rfl
  | some g =>
    obtain ⟨hin, hci⟩ := scanP1_spec s g hr
    rw [isSubCI_mono m3u8pat g s hci hin] at h
    cases h

theorem scanP2_none (s : List Char) (h : isSub m3u8pat s = false) :
    scanP2 s = none := by
  cases hr : scanP2 s with
  | none => rfl
  | some g =>
    obtain ⟨hin, hsb⟩ := scanP2_spec s g hr
    rw [isSub_mono m3u8pat g s hsb hin] at h
    cases h

theorem scanScripts_none (scripts : List (Option String))
    (h : ∀ s, some s ∈ scripts → isSubCI m3u8pat s.toList = false) :
    scanScripts scripts = none := by
  induction scripts with
  | nil => rfl
  | cons o rest ih =>
    have hrest : scanScripts rest = none :=
      ih (fun s hs => h s (List.mem_cons_of_mem o hs))
    cases o with
    | none => simpa only [scanScripts] using hrest
    | some s =>
      have hs := h s (List.mem_cons_self (some s) rest)
      have hp1 : scanP1 s.toList = none := scanP1_none s.toList hs
      by_cases hc : isSub ['m', '3', 'u', '8'] s.toList = true
      · simp only [scanScripts, if_pos hc, hp1]
        exact hrest
      · simp only [scanScripts, if_neg hc]
        exact hrest

theorem scanScripts_ci (scripts : List (Option String)) (m : String)
    (h : scanScripts scripts = some m) : isSubCI m3u8pat m.toList = true := by
  induction scripts with
  | nil => exact Option.noConfusion h
  | cons o rest ih =>
    cases o with
    | none =>
      simp only [scanScripts] at h
      exact ih h
    | some s =>
      by_cases hc : isSub ['m', '3', 'u', '8'] s.toList = true
      · simp only [scanScripts, if_pos hc] at h
        cases hp : scanP1 s.toList with
        | some g =>
          rw [hp] at h
          cases h
          rw [toList_mk]
          exact (scanP1_spec s.toList g hp).2
        | none =>
          rw [hp] at h
          exact ih h
      · simp only [scanScripts, if_neg hc] at h
        exact ih h

theorem isSub_slash_drop (l : List Char)
    (h : isSub m3u8pat l = true) :
    isSub m3u8pat (l.dropWhile (fun c => c == '/')) = true := by
  induction l with
  | nil => simpa using h
  | cons c rest ih =>
    by_cases hc : (c == '/') = true
    · rw [List.dropWhile_cons, if_pos hc]
      apply ih
      have hc' : c = '/' := by simpa using hc
      subst hc'
      rw [show isSub m3u8pat ('/' :: rest)
          = (pfx m3u8pat ('/' :: rest) || isSub m3u8pat rest) from rfl] at h
      rw [show pfx m3u8pat ('/' :: rest)
          = (('.' == '/') && pfx ['m', '3', 'u', '8'] rest) from rfl] at h
      simpa using h
    · rw [List.dropWhile_cons, if_neg hc]
      exact h

theorem isSubCI_slash_drop (l : List Char)
    (h : isSubCI m3u8pat l = true) :
    isSubCI m3u8pat (l.dropWhile (fun c => c == '/')) = true := by
  induction l with
  | nil => simpa using h
  | cons c rest ih =>
    by_cases hc : (c == '/') = true
    · rw [List.dropWhile_cons, if_pos hc]
      apply ih
      have hc' : c = '/' := by simpa using hc
      subst hc'
      have h' : (pfx (m3u8pat.map lc) (lc '/' :: rest.map lc)
          || isSub (m3u8pat.map lc) (rest.map lc)) = true := h
      rw [show pfx (m3u8pat.map lc) (lc '/' :: rest.map lc) = false from rfl,
        Bool.false_or] at h'
      exact h'
    · rw [List.dropWhile_cons, if_neg hc]
      exact h

theorem isSubCI_append_right (pre l : List Char)
    (h : isSubCI m3u8pat l = true) : isSubCI m3u8pat (pre ++ l) = true :=
  isSubCI_mono m3u8pat l (pre ++ l) h ⟨pre, [], by simp⟩

theorem resolve_ci (u m : String) (h : isSubCI m3u8pat m.toList = true) :
    isSubCI m3u8pat (resolve u m).toList = true := by
  unfold resolve
  by_cases hp : pfx "http".toList m.toList = true
  · rw [if_pos hp]
    exact h
  · rw [if_neg hp]
    rw [toList_mk]
    have h1 := isSubCI_slash_drop m.toList h
    have h2 : isSubCI m3u8pat
        ('/' :: m.toList.dropWhile (fun c => c == '/')) = true := by
      have := isSubCI_append_right ['/']
        (m.toList.dropWhile (fun c => c == '/')) h1
      simpa using this
    have := isSubCI_append_right
      (List.intercalate ['/'] ((splitChar '/' u.toList).dropLast))
      ('/' :: m.toList.dropWhile (fun c => c == '/')) h2
    exact this

/-- C10 counterexample: a script block whose assignment match is
`A.M3U8` (matched case-insensitively) makes `extract_m3u8_url` return a
URL that does not contain the lowercase substring `.m3u8`, so the claim
that every returned URL contains `.m3u8` fails as stated. -/
theorem C10_counterexample :
    extract_m3u8_url
        { scripts := [some "m3u8 src=\"A.M3U8\""],
          text := "<script>m3u8 src=\"A.M3U8\"</script>" }
        "http://h/p" = some "http://h/A.M3U8"
    ∧ isSub m3u8pat ("http://h/A.M3U8").toList = false := by
  refine ⟨by decide, by decide⟩

/-- C10 amended: whenever `extract_m3u8_url` returns a URL, that URL
contains `.m3u8` up to ASCII case — the script-block regex requires the
quoted run to contain `.m3u8` case-insensitively, the raw-text fallback
requires it literally, and relative-path resolution (prefixing the page
directory and stripping leading slashes) preserves the occurrence. -/
theorem C10_url_contains_m3u8 (page : Page) (u r : String)
    (h : extract_m3u8_url page u = some r) :
    isSubCI m3u8pat r.toList = true := by
  cases hs : scanScripts page.scripts with
  | some m =>
    simp only [extract_m3u8_url, hs] at h
    cases h
    exact resolve_ci u m (scanScripts_ci page.scripts m hs)
  | none =>
    cases hp : scanP2 page.text.toList with
    | some g =>
      simp only [extract_m3u8_url, hs, hp] at h
      cases h
      refine resolve_ci u (String.mk g) ?_
      rw [toList_mk]
      exact isSubCI_of_isSub g (scanP2_spec page.text.toList g hp).2
    | none =>
      simp only [extract_m3u8_url, hs, hp] at h
      exact Option.noConfusion h

/-- C10 witness at a concrete page whose raw text carries a quoted
`a.m3u8`. -/
theorem C10_url_contains_m3u8_witness :
    isSubCI m3u8pat ("http://h/a.m3u8").toList = true :=
  C10_url_contains_m3u8
    { scripts := [], text := "x \"a.m3u8\" y" } "http://h/p" "http://h/a.m3u8"
    (by decide)

/-- C6 counterexample: markup whose only script is
`m3u8 src="A.M3U8"` contains no occurrence of the (lowercase) substring
`.m3u8` at all, yet `extract_m3u8_url` returns a URL: the script regex
is case-insensitive, so the claim fails as stated. -/
theorem C6_counterexample :
    isSub m3u8pat ("m3u8 src=\"A.M3U8\"").toList = false
    ∧ isSub m3u8pat ("<script>m3u8 src=\"A.M3U8\"</script>").toList = false
    ∧ extract_m3u8_url
        { scripts := [some "m3u8 src=\"A.M3U8\""],
          text := "<script>m3u8 src=\"A.M3U8\"</script>" }
        "http://h/p" = some "http://h/A.M3U8" := by
  refine ⟨by decide, by decide, by decide⟩

/-- C6 amended: if no script block contains `.m3u8` in any ASCII case
variant and the raw document text does not contain `.m3u8`, then
`extract_m3u8_url` returns `None` (NotFound) — and, being a total
function, does not raise. -/
theorem C6_no_m3u8_not_found (page : Page) (u : String)
    (h1 : ∀ s, some s ∈ page.scripts → isSubCI m3u8pat s.toList = false)
    (h2 : isSub m3u8pat page.text.toList = false) :
    extract_m3u8_url page u = none := by
  have hs := scanScripts_none page.scripts h1
  have hp := scanP2_none page.text.toList h2
  simp only [extract_m3u8_url, hs, hp]

/-- C6 witness at a concrete page with no m3u8 anywhere. -/
theorem C6_no_m3u8_not_found_witness :
    extract_m3u8_url { scripts := [some "hello"], text := "<p>hi</p>" } "u"
      = none :=
  C6_no_m3u8_not_found { scripts := [some "hello"], text := "<p>hi</p>" } "u"
    (by
      intro s hs
      simp only [Page.scripts, List.mem_cons, List.not_mem_nil, or_false,
        Option.some.injEq] at hs
      subst hs
      decide)
    (by decide)

/-- C4 counterexample: the script `src: "A.M3U8"` matches the
case-insensitive assignment pattern (so a script-block assignment match
exists), but the case-sensitive pre-check `'m3u8' in script.string`
skips the block and the raw-text fallback supplies a different URL, so
the claim that the script match is always returned fails as stated. -/
theorem C4_counterexample :
    scanP1 ("src: \"A.M3U8\"").toList = some ("A.M3U8").toList
    ∧ extract_m3u8_url
        { scripts := [some "src: \"A.M3U8\""], text := "\"b.m3u8\"" }
        "http://h/p" = some "http://h/b.m3u8"
    ∧ resolve "http://h/p" "A.M3U8" = "http://h/A.M3U8"
    ∧ ("http://h/b.m3u8" : String) ≠ "http://h/A.M3U8" := by
  refine ⟨by decide, by decide, by decide, by decide⟩

/-- C4 amended: among script blocks that pass the case-sensitive
pre-check `'m3u8' in script.string`, the first one matching the
assignment regex supplies the result, and only when that scan yields
nothing does `extract_m3u8_url` fall back to scanning the raw document
text for a quoted string containing `.m3u8`. -/
theorem C4_script_priority (page : Page) (u m : String) :
    (scanScripts page.scripts = some m →
      extract_m3u8_url page u = some (resolve u m))
    ∧ (scanScripts page.scripts = none →
      extract_m3u8_url page u
        = Option.map (fun g => resolve u (String.mk g))
            (scanP2 page.text.toList)) := by
  constructor
  · intro h
    simp only [extract_m3u8_url, h]
  · intro h
    cases hp : scanP2 page.text.toList with
    | some g => simp only [extract_m3u8_url, h, hp, Option.map]
    | none => simp only [extract_m3u8_url, h, hp, Option.map]

/-- C4 witness: the script match `a.m3u8` wins over an earlier quoted
`b.m3u8` in the raw text; on a page with no usable script the fallback
scan decides. -/
theorem C4_script_priority_witness :
    extract_m3u8_url
        { scripts := [some "url = \"a.m3u8\""], text := "\"b.m3u8\" url = \"a.m3u8\"" }
        "http://h/p" = some (resolve "http://h/p" "a.m3u8")
    ∧ extract_m3u8_url { scripts := [some "nothing here"], text := "\"c.m3u8\"" }
        "http://h/p"
      = Option.map (fun g => resolve "http://h/p" (String.mk g))
          (scanP2 ("\"c.m3u8\"" : String).toList) :=
  ⟨(C4_script_priority
      { scripts := [some "url = \"a.m3u8\""], text := "\"b.m3u8\" url = \"a.m3u8\"" }
      "http://h/p" "a.m3u8").1 (by decide),
   (C4_script_priority
      { scripts := [some "nothing here"], text := "\"c.m3u8\"" }
      "http://h/p" "").2 (by decide)⟩

/-- C3 counterexample: a script containing the assignment
`src: "foo.m3u8"` preceded by `link = "http.m3u8"` makes the leftmost
regex match win, and the matched string `http.m3u8` — which has no
scheme prefix (it contains no colon at all) — is returned unchanged
because the code only tests `startswith('http')`; the locator therefore
returns neither `https://x.test/dir/foo.m3u8` nor a directory-resolved
URL, refuting the claim as stated. -/
theorem C3_counterexample :
    isSub ("src: \"foo.m3u8\"").toList
        ("link = \"http.m3u8\"; src: \"foo.m3u8\"").toList = true
    ∧ extract_m3u8_url
        { scripts := [some "link = \"http.m3u8\"; src: \"foo.m3u8\""], text := "" }
        "https://x.test/dir/page.htm" = some "http.m3u8"
    ∧ ("http.m3u8" : String) ≠ "https://x.test/dir/foo.m3u8"
    ∧ (("http.m3u8" : String).toList.contains ':') = false
    ∧ ("http.m3u8" : String)
        ≠ String.mk (List.intercalate ['/']
            ((splitChar '/' ("https://x.test/dir/page.htm" : String).toList).dropLast)
          ++ '/' :: ("http.m3u8" : String).toList.dropWhile (fun c => c == '/')) := by
  refine ⟨by decide, by decide, by decide, by decide, by decide⟩

/-- C3 amended: when the script regex's first match over a script is
exactly `foo.m3u8` and the page address is
`https://x.test/dir/page.htm`, the locator returns
`https://x.test/dir/foo.m3u8`; and in general a matched string that
does not start with `http` is resolved to all `/`-separated segments of
the page address except the last, rejoined with `/`, a trailing `/`,
and the matched path with leading `/` characters stripped. -/
theorem C3_relative_resolution (s text : String)
    (h : scanP1 s.toList = some ("foo.m3u8").toList) :
    extract_m3u8_url { scripts := [some s], text := text }
        "https://x.test/dir/page.htm" = some "https://x.test/dir/foo.m3u8"
    ∧ ∀ u m : String, pfx ("http").toList m.toList = false →
        resolve u m = String.mk (List.intercalate ['/']
            ((splitChar '/' u.toList).dropLast)
          ++ '/' :: m.toList.dropWhile (fun c => c == '/')) := by
  constructor
  · have hin := (scanP1_spec s.toList ("foo.m3u8").toList h).1
    have hpre : isSub ['m', '3', 'u', '8'] s.toList = true :=
      isSub_mono ['m', '3', 'u', '8'] ("foo.m3u8").toList s.toList (by decide) hin
    have hscan : scanScripts [some s] = some "foo.m3u8" := by
      simp only [scanScripts, if_pos hpre, h]
      rfl
    simp only [extract_m3u8_url, hscan]
    decide
  · intro u m hm
    unfold resolve
    rw [if_neg (by simpa using hm)]

/-- C3 witness at the script `var src: "foo.m3u8";`. -/
theorem C3_relative_resolution_witness :
    extract_m3u8_url
        { scripts := [some "var src: \"foo.m3u8\";"], text := "" }
        "https://x.test/dir/page.htm" = some "https://x.test/dir/foo.m3u8"
    ∧ ∀ u m : String, pfx ("http").toList m.toList = false →
        resolve u m = String.mk (List.intercalate ['/']
            ((splitChar '/' u.toList).dropLast)
          ++ '/' :: m.toList.dropWhile (fun c => c == '/')) :=
  C3_relative_resolution "var src: \"foo.m3u8\";" "" (by decide)

/-- C2: the claim expects an all-sentinel record on markup with no
recognised pattern, but on such markup both `soup.find('h1')` and
`soup.find('title')` return `None`, the fallback chain leaves the plain
string `'Unknown Title'` in `title`, and `title.text` then raises
`AttributeError`, so the blanket handler reports the error and
`extract_metadata` returns `None` instead: evaluating the embedding on
the pattern-free document `<div>hello</div>` yields `None`, not a
record. -/
theorem C2_pattern_free_returns_none :
    extract_metadata [Node.element "div" "hello", Node.textNode "hello"]
        "http://example.com/p" = none
    ∧ (none : Option VideoMetadata)
      ≠ some
        { title := "Unknown Title", author := "Unknown Author",
          duration := "Unknown Duration", views := "Unknown Views",
          date := "Unknown Date", page_url := "http://example.com/p" } := by
  refine ⟨by decide, by decide⟩

/-- C5: whenever the document has a primary heading element, the
extracted title is that heading's text with surrounding whitespace
stripped; when there is none but a document title element exists, its
stripped text is used instead. -/
theorem C5_title_from_heading (doc : Doc) (u t : String) :
    (findTag doc "h1" = some t →
      ∃ md, extract_metadata doc u = some md ∧ md.title = pyStrip t)
    ∧ (findTag doc "h1" = none → findTag doc "title" = some t →
      ∃ md, extract_metadata doc u = some md ∧ md.title = pyStrip t) := by
  constructor
  · intro h
    refine ⟨metaFields doc u (pyStrip t), ?_, rfl⟩
    simp only [extract_metadata, h]
  · intro h1 h2
    refine ⟨metaFields doc u (pyStrip t), ?_, rfl⟩
    simp only [extract_metadata, h1, h2]

/-- C5 witness: an `h1` document and an `h1`-free document with a
`title` element. -/
theorem C5_title_from_heading_witness :
    (∃ md, extract_metadata [Node.element "h1" " T "] "u" = some md
      ∧ md.title = pyStrip " T ")
    ∧ (∃ md, extract_metadata [Node.element "title" " U "] "u" = some md
      ∧ md.title = pyStrip " U ") :=
  ⟨(C5_title_from_heading [Node.element "h1" " T "] "u" " T ").1 (by decide),
   (C5_title_from_heading [Node.element "title" " U "] "u" " U ").2
     (by decide) (by decide)⟩
